import Mathlib

/-!
Verification development for the CodexMonitor session engine
(src/src-tauri/src/lib.rs).  The definitions below are a shallow embedding
of the Rust code: `serde_json::Value` becomes `Json`, the serializer used by
`WorkspaceSession::write_message` becomes `renderChars`/`writeMessage`, the
stdout reader task of `spawn_workspace_session` becomes `processLine` /
`readerRun`, the pending-completion table and request counter become
`SessionM`, the handshake tail of `spawn_workspace_session` becomes
`finishHandshake`, `build_codex_command`'s PATH augmentation becomes
`childPathEntries`, and the `add_workspace` command becomes `addWorkspace`.
-/

namespace CodexMonitor

/-- JSON values, modelling `serde_json::Value` from the Rust source.  Numbers
are modelled as integers: the engine only ever inspects numbers through
`as_u64` (request ids); floating-point payloads are opaque to every claim.
Objects are association lists; objects produced by parsing have unique keys. -/
inductive Json where
  | null
  | bool (b : Bool)
  | num (i : Int)
  | str (s : String)
  | arr (elems : List Json)
  | obj (fields : List (String × Json))

/-- Field access on a JSON value, modelling `Value::get(key)` from serde_json:
`none` on non-objects, association lookup on objects. -/
def Json.get (v : Json) (key : String) : Option Json :=
  match v with
  | Json.obj fields => fields.lookup key
  | _ => none

/-- Modelling `Value::as_u64`: `some` exactly for integer numbers in
`[0, 2^64)`. -/
def Json.asU64 (v : Json) : Option Nat :=
  match v with
  | Json.num i => if 0 ≤ i ∧ i < 2 ^ 64 then some i.toNat else none
  | _ => none

/-! ## The line serializer

`WorkspaceSession::write_message` runs `serde_json::to_string(&value)`,
appends `'\n'` and writes the bytes while holding the `stdin` mutex.  The
serializer below reproduces serde_json's compact output, including its
string escaping (which is what guarantees a serialized message contains no
raw newline). -/

/-- Lower-case hexadecimal digit, as used by serde_json's `\uXXXX` escapes. -/
def hexDigitChar : Nat → Char
  | 0 => '0' | 1 => '1' | 2 => '2' | 3 => '3' | 4 => '4'
  | 5 => '5' | 6 => '6' | 7 => '7' | 8 => '8' | 9 => '9'
  | 10 => 'a' | 11 => 'b' | 12 => 'c' | 13 => 'd' | 14 => 'e' | 15 => 'f'
  | _ => '0'

/-- serde_json's escaping of a single character inside a JSON string:
quote and backslash are escaped, the short escapes `\n \r \t \b \f` are
used for their control characters, all other control characters become
`\u00XX`, and everything else is emitted verbatim. -/
def escapeChar (c : Char) : List Char :=
  if c = '"' then ['\\', '"']
  else if c = '\\' then ['\\', '\\']
  else if c = '\n' then ['\\', 'n']
  else if c = '\r' then ['\\', 'r']
  else if c = '\t' then ['\\', 't']
  else if c = '\x08' then ['\\', 'b']
  else if c = '\x0c' then ['\\', 'f']
  else if c.toNat < 32 then
    ['\\', 'u', '0', '0', hexDigitChar (c.toNat / 16), hexDigitChar (c.toNat % 16)]
  else [c]

/-- A JSON string literal: quoted, with every character escaped. -/
def escapeStr (s : String) : List Char :=
  '"' :: (s.data.map escapeChar).flatten ++ ['"']

/-- Decimal digits of a natural number, most significant first. -/
def natDigits (n : Nat) : List Char :=
  if h : n < 10 then [hexDigitChar n]
  else natDigits (n / 10) ++ [hexDigitChar (n % 10)]
decreasing_by exact Nat.div_lt_self (by omega) (by omega)

/-- Decimal rendering of an integer, as serde_json prints numbers. -/
def renderInt (i : Int) : List Char :=
  if i < 0 then '-' :: natDigits i.natAbs else natDigits i.toNat

mutual

/-- Compact serialization of a JSON value, modelling
`serde_json::to_string`. -/
def renderChars : Json → List Char
  | Json.null => ['n', 'u', 'l', 'l']
  | Json.bool true => ['t', 'r', 'u', 'e']
  | Json.bool false => ['f', 'a', 'l', 's', 'e']
  | Json.num i => renderInt i
  | Json.str s => escapeStr s
  | Json.arr xs => '[' :: renderArr xs ++ [']']
  | Json.obj fs => '\x7b' :: renderObj fs ++ ['\x7d']

/-- Comma-separated serialization of array elements. -/
def renderArr : List Json → List Char
  | [] => []
  | [v] => renderChars v
  | v :: w :: rest => renderChars v ++ ',' :: renderArr (w :: rest)

/-- Comma-separated serialization of object entries. -/
def renderObj : List (String × Json) → List Char
  | [] => []
  | [(k, v)] => escapeStr k ++ ':' :: renderChars v
  | (k, v) :: f :: rest => (escapeStr k ++ ':' :: renderChars v) ++ ',' :: renderObj (f :: rest)

end

/-- The exact byte sequence `write_message` sends for one outbound value:
the serialized object followed by a single `'\n'`, written in one piece
while the `stdin` mutex is held (so concurrent writers never interleave
inside a line). -/
def writeMessage (v : Json) : List Char :=
  renderChars v ++ ['\n']


/-! ## Outbound message construction

`send_request`, `send_notification` and `send_response` build their payloads
with `serde_json::json!`; serde_json object literals store fields in a map
sorted by key, and every literal in the source already lists its keys in
sorted order, so insertion order below equals serialization order. -/

/-- The request object written by `send_request`:
`json!({ "id": id, "method": method, "params": params })`. -/
def requestMsg (id : Nat) (method : String) (params : Json) : Json :=
  Json.obj [(("id"), Json.num id), (("method"), Json.str method), (("params"), params)]

/-- The notification object written by `send_notification`: the `params` key
is present exactly when params were supplied. -/
def notificationMsg (method : String) (params : Option Json) : Json :=
  match params with
  | some p => Json.obj [(("method"), Json.str method), (("params"), p)]
  | none => Json.obj [(("method"), Json.str method)]

/-- The reply object written by `send_response`:
`json!({ "id": id, "result": result })`. -/
def responseMsg (id : Nat) (result : Json) : Json :=
  Json.obj [(("id"), Json.num id), (("result"), result)]

/-- The synthetic event payload the stdout reader emits for an unparsable
line, carrying the parse failure text and the raw line. -/
def parseErrorMsg (err raw : String) : Json :=
  Json.obj [(("method"), Json.str ("codex/parseError")),
    (("params"), Json.obj [(("error"), Json.str err), (("raw"), Json.str raw)])]

/-! ## The session state

`WorkspaceSession` owns `pending : Mutex<HashMap<u64, oneshot::Sender<Value>>>`
and `next_id : AtomicU64` (initialized to 1).  A request's `oneshot`
channel is modelled by the request's observable outcome:
`rx.await` is still suspended (`waiting`), returned `Ok(msg)` (`delivered`),
the caller itself dropped the receiver (`abandoned`), or the sender was
dropped without a message so `rx.await` returned the "request canceled"
error (`canceled`). -/
inductive ReqOutcome where
  | waiting
  | delivered (msg : Json)
  | abandoned
  | canceled

/-- `tx.send(value)` on a oneshot sender: it fulfills a still-waiting
receiver and is a silent no-op in every other case (the code ignores its
result with `let _ = tx.send(value)`). -/
def fulfill (v : Json) (o : ReqOutcome) : ReqOutcome :=
  match o with
  | ReqOutcome.waiting => ReqOutcome.delivered v
  | o => o

/-- Dropping a oneshot sender: a still-waiting receiver gets the
"request canceled" error; otherwise nothing changes. -/
def senderDropped (o : ReqOutcome) : ReqOutcome :=
  match o with
  | ReqOutcome.waiting => ReqOutcome.canceled
  | o => o

/-- Dropping a oneshot receiver (the caller gives up, e.g. its own timeout
fires): a waiting request becomes abandoned; a completed one is unchanged. -/
def receiverDropped (o : ReqOutcome) : ReqOutcome :=
  match o with
  | ReqOutcome.waiting => ReqOutcome.abandoned
  | o => o

/-- One session's observable state: the id counter, the outcome of every
request ever issued (keyed by its id), the set of ids whose sender is still
in the `pending` map, the app-server events emitted so far, and the
messages written to the child's stdin. -/
structure SessionM where
  nextId : Nat
  reqs : List (Nat × ReqOutcome)
  table : List Nat
  events : List Json
  outbox : List Json

/-- The session state right after `spawn_workspace_session` builds the
`WorkspaceSession` value: `next_id` starts at 1, nothing pending. -/
def initSession : SessionM :=
  { nextId := 1, reqs := [], table := [], events := [], outbox := [] }

/-- Apply `f` to the outcome stored under key `i`, leaving every other entry
untouched. -/
def mapReq (i : Nat) (f : ReqOutcome → ReqOutcome) : List (Nat × ReqOutcome) → List (Nat × ReqOutcome)
  | [] => []
  | (k, o) :: rest => (if k = i then (k, f o) else (k, o)) :: mapReq i f rest

/-- Dropping the whole `pending` map (the session value itself is dropped at
teardown): every sender whose id is still in the table is dropped. -/
def dropSenders (tbl : List Nat) : List (Nat × ReqOutcome) → List (Nat × ReqOutcome)
  | [] => []
  | (k, o) :: rest =>
      (if k ∈ tbl then (k, senderDropped o) else (k, o)) :: dropSenders tbl rest

/-- The reader's reply path: `if let Some(tx) = pending.lock().await.remove(&id)
{ let _ = tx.send(value); }` — remove the completion for `id` if present and
fulfill it with the full inbound message; otherwise do nothing. -/
def tryFulfill (id : Nat) (v : Json) (s : SessionM) : SessionM :=
  if id ∈ s.table then
    { s with table := s.table.erase id, reqs := mapReq id (fulfill v) s.reqs }
  else s

/-- Emitting one `app-server-event` with the given message payload. -/
def emitEvent (v : Json) (s : SessionM) : SessionM :=
  { s with events := s.events ++ [v] }

/-- `send_request`: allocate the next id (`fetch_add(1)`), register a fresh
pending completion, and write `{id, method, params}` to stdin. -/
def sendRequestOp (method : String) (params : Json) (s : SessionM) : SessionM :=
  { s with
    nextId := s.nextId + 1,
    reqs := s.reqs ++ [(s.nextId, ReqOutcome.waiting)],
    table := s.table ++ [s.nextId],
    outbox := s.outbox ++ [requestMsg s.nextId method params] }

/-- A caller abandons its own wait for `id` (drops the receiver).  Nothing in
the code observes this: the pending map is untouched. -/
def callerCancelOp (id : Nat) (s : SessionM) : SessionM :=
  { s with reqs := mapReq id receiverDropped s.reqs }

/-- Session teardown: the `WorkspaceSession` (and with it the `pending`
HashMap) is dropped, dropping every sender still in the table. -/
def sessionDrop (s : SessionM) : SessionM :=
  { s with table := [], reqs := dropSenders s.table s.reqs }

/-! ## The stdout reader -/

/-- One line read from the child's stdout, embedded by its trim/parse
outcome: `blank` when `line.trim().is_empty()`, `invalid` when
`serde_json::from_str` fails (carrying the raw text and the error's
rendering), `valid v` when it parses to the JSON value `v`.  Parsing itself
is serde_json, external to this crate. -/
inductive RawLine where
  | blank
  | invalid (raw err : String)
  | valid (v : Json)

/-- `value.get("id").and_then(|id| id.as_u64())`. -/
def numericId (v : Json) : Option Nat :=
  (Json.get v ("id")).bind Json.asU64

/-- `value.get("result").is_some() || value.get("error").is_some()`. -/
def hasResultOrError (v : Json) : Bool :=
  (Json.get v ("result")).isSome || (Json.get v ("error")).isSome

/-- `value.get("method").is_some()`. -/
def hasMethod (v : Json) : Bool :=
  (Json.get v ("method")).isSome

/-- The body of the stdout reader loop for one line, exactly following the
branch structure in `spawn_workspace_session`. -/
def processLine (l : RawLine) (s : SessionM) : SessionM :=
  match l with
  | RawLine.blank => s
  | RawLine.invalid raw err => emitEvent (parseErrorMsg err raw) s
  | RawLine.valid v =>
    match numericId v with
    | some id =>
      if hasResultOrError v then tryFulfill id v s
      else if hasMethod v then emitEvent v s
      else tryFulfill id v s
    | none => if hasMethod v then emitEvent v s else s

/-- The reader loop over the remaining stdout lines; the list ending models
the stream closing (`next_line()` returning `Ok(None)` or `Err`), at which
point the task simply returns. -/
def readerRun (lines : List RawLine) (s : SessionM) : SessionM :=
  lines.foldl (fun s l => processLine l s) s

/-! ## Interleaved session histories -/

/-- The events that can touch a session's request state: a caller issuing a
request, the reader consuming one stdout line, a caller abandoning its wait,
and the session being dropped at teardown. -/
inductive Op where
  | sendRequest (method : String) (params : Json)
  | line (l : RawLine)
  | callerCancel (id : Nat)
  | teardown

/-- One step of a session history. -/
def step (s : SessionM) : Op → SessionM
  | Op.sendRequest m p => sendRequestOp m p s
  | Op.line l => processLine l s
  | Op.callerCancel id => callerCancelOp id s
  | Op.teardown => sessionDrop s

/-- Run a history from an arbitrary state. -/
def runFrom (s : SessionM) (ops : List Op) : SessionM :=
  ops.foldl step s

/-- Run a history from the freshly constructed session. -/
def runTrace (ops : List Op) : SessionM :=
  runFrom initSession ops

/-! ## The handshake tail of `spawn_workspace_session`

After the child is spawned and the reader tasks are started, the code runs
`timeout(15s, session.send_request("initialize", ..))`, then
`init_response?`, then `session.send_notification("initialized", None).await?`.
The outcome of the bounded initialize call is either the timeout elapsing,
`send_request` returning `Err` (a stdin write failure or the oneshot being
canceled), or `Ok(v)` with the full reply value `v`. -/
inductive InitOutcome where
  | timedOut
  | failed (e : String)
  | replied (v : Json)

/-- The error string returned when the initialize call times out. -/
def handshakeTimeoutMsg : String :=
  "Codex app-server did not respond to initialize. Check that `codex app-server` works in Terminal."

/-- What `spawn_workspace_session` does after the initialize call resolves:
whether the child was killed on this path, and whether an `Ok(session)` was
returned to the caller (`exposed`) or which error. -/
structure SpawnResult where
  exposed : Bool
  killed : Bool
  error : Option String

/-- The handshake decision, mirroring the `match init_result` in the source:
only the timeout arm kills the child; `init_response?` propagates a
transport error without killing; any reply value — its `error` field
included — falls through to the `initialized` notification, whose write
result `notify` decides success. -/
def finishHandshake (init : InitOutcome) (notify : Except String Unit) : SpawnResult :=
  match init with
  | InitOutcome.timedOut =>
      { exposed := false, killed := true, error := some handshakeTimeoutMsg }
  | InitOutcome.failed e => { exposed := false, killed := false, error := some e }
  | InitOutcome.replied _ =>
    match notify with
    | Except.error e => { exposed := false, killed := false, error := some e }
    | Except.ok _ => { exposed := true, killed := false, error := none }

/-- The whole of `spawn_workspace_session` as seen by `add_workspace`:
`check_codex_installation` (probe), `command.spawn()`, then the handshake.
Each stage's environment-dependent outcome is an argument. -/
def spawnWorkspaceSession (probe : Except String (Option String))
    (spawnOk : Except String Unit) (init : InitOutcome)
    (notify : Except String Unit) : Except String Unit :=
  match probe with
  | Except.error e => Except.error e
  | Except.ok _ =>
    match spawnOk with
    | Except.error e => Except.error e
    | Except.ok _ =>
      match (finishHandshake init notify).error with
      | some e => Except.error e
      | none => Except.ok ()

/-! ## `add_workspace` and the application state -/

/-- A persisted workspace entry (`WorkspaceEntry`). -/
structure WorkspaceEntryM where
  id : String
  name : String
  path : String
  codexBin : Option String
  sidebarCollapsed : Bool

/-- The application state touched by `add_workspace`: the in-memory
workspaces map, the log of `write_workspaces` calls to the persisted file,
and the ids registered in the sessions map. -/
structure AppStateM where
  workspaces : List (String × WorkspaceEntryM)
  storageWrites : List (List WorkspaceEntryM)
  sessions : List String

/-- `HashMap::insert`: replace the entry under the key if present, else add
it. -/
def insertWorkspace (k : String) (v : WorkspaceEntryM)
    (l : List (String × WorkspaceEntryM)) : List (String × WorkspaceEntryM) :=
  if l.any (fun p => p.1 == k) then
    l.map (fun p => if p.1 == k then (k, v) else p)
  else l ++ [(k, v)]

/-- `add_workspace`: build the entry (fresh Uuid, name from the path — both
taken here as the given `entry`), spawn the session, and only on success
insert into the workspaces map, persist the list, and register the session.
`spawn_workspace_session(..).await?` returns before any mutation, so a
spawn failure leaves the state untouched.  (The persist step's own I/O
error path is not exercised by any claim and is modelled as succeeding.) -/
def addWorkspace (probe : Except String (Option String))
    (spawnOk : Except String Unit) (init : InitOutcome)
    (notify : Except String Unit) (entry : WorkspaceEntryM)
    (st : AppStateM) : AppStateM × Except String Unit :=
  match spawnWorkspaceSession probe spawnOk init notify with
  | Except.error e => (st, Except.error e)
  | Except.ok _ =>
    let ws := insertWorkspace entry.id entry st.workspaces
    ({ workspaces := ws,
       storageWrites := st.storageWrites ++ [ws.map Prod.snd],
       sessions := st.sessions ++ [entry.id] },
     Except.ok ())

/-! ## `build_codex_command`'s PATH augmentation -/

/-- Rust `str::split(':')` over the characters of a PATH value: separators
delimit (possibly empty) entries, so `"a::b"` yields `["a", "", "b"]` and
`""` yields `[""]`. -/
def splitPathAux (acc : List Char) : List Char → List String
  | [] => [String.mk acc.reverse]
  | c :: rest =>
      if c = ':' then String.mk acc.reverse :: splitPathAux [] rest
      else splitPathAux (c :: acc) rest

/-- Split a PATH string on `':'`. -/
def splitPath (s : String) : List String :=
  splitPathAux [] s.data

/-- Rust `str::trim().is_empty()`: every character is whitespace. -/
def trimEmpty (s : String) : Bool :=
  s.data.all (fun c => c.isWhitespace)

/-- `entry.codex_bin.as_ref().map(|v| v.trim().is_empty()).unwrap_or(true)`:
the default binary name is used when no explicit path, or a blank one, is
configured. -/
def defaultBinUsed (codexBin : Option String) : Bool :=
  match codexBin with
  | some v => trimEmpty v
  | none => true

/-- The entries of the inherited PATH after the source's
`.split(':').filter(|v| !v.is_empty())`; a missing PATH variable is
`unwrap_or_default()`, the empty string. -/
def inheritedPathEntries (pathVar : Option String) : List String :=
  (splitPath (pathVar.getD (""))).filter (fun v => !(v == ""))

/-- The fixed extra directories, plus the two HOME-relative ones when the
HOME variable is set (`format!` concatenation). -/
def pathExtras (home : Option String) : List String :=
  ["/opt/homebrew/bin", "/usr/local/bin", "/usr/bin", "/bin", "/usr/sbin", "/sbin"] ++
    (match home with
     | some h => [h ++ "/.local/bin", h ++ "/.cargo/bin"]
     | none => [])

/-- The source's append loop: `for extra in extras { if !paths.contains(&extra)
{ paths.push(extra); } }`. -/
def appendMissing (paths : List String) (extras : List String) : List String :=
  extras.foldl (fun acc e => if e ∈ acc then acc else acc ++ [e]) paths

/-- The PATH the child is launched with: `some entries` when the code calls
`command.env("PATH", entries.join(":"))`, `none` when the inherited PATH is
left unmodified (explicit non-blank binary configured, or the final list is
empty). -/
def childPathEntries (codexBin : Option String) (pathVar home : Option String) :
    Option (List String) :=
  if defaultBinUsed codexBin then
    let paths := appendMissing (inheritedPathEntries pathVar) (pathExtras home)
    if paths.isEmpty then none else some paths
  else none

/-! ## Spec-side classification (claim C6)

The claim describes inbound routing as purely structural classification
rules followed by their dispatch.  `classifyLine`/`dispatchClass` are
modelled from the claim's words, to be compared with `processLine` (which is
modelled from the source). -/

/-- Modelled from the claim's classification rules: the structural category
of one inbound line. -/
inductive MsgClass where
  | blankLine
  | reply (id : Nat) (msg : Json)
  | serverRequest (msg : Json)
  | replyFallback (id : Nat) (msg : Json)
  | notification (msg : Json)
  | unparsable (raw err : String)
  | other (msg : Json)

/-- Modelled from the claim: a blank line; a valid object with a numeric id
and a result or error field is a reply; numeric id and a method but no
result/error is a server-initiated request; numeric id, no method, no
result/error is the reply fallback; no numeric id but a method is a
notification; an unparsable line is a parse error; anything else is other. -/
def classifyLine : RawLine → MsgClass
  | RawLine.blank => MsgClass.blankLine
  | RawLine.invalid raw err => MsgClass.unparsable raw err
  | RawLine.valid v =>
    match numericId v with
    | some id =>
      if hasResultOrError v then MsgClass.reply id v
      else if hasMethod v then MsgClass.serverRequest v
      else MsgClass.replyFallback id v
    | none => if hasMethod v then MsgClass.notification v else MsgClass.other v

/-- Modelled from the claim: what each category does — replies (and the
fallback) look up and remove the pending completion and fulfill it with the
full message, dropping silently when none matches; server-initiated requests
and notifications are forwarded as events; parse errors produce the
synthetic parse-error event; blank and unclassified lines do nothing. -/
def dispatchClass (c : MsgClass) (s : SessionM) : SessionM :=
  match c with
  | MsgClass.blankLine => s
  | MsgClass.reply id msg => tryFulfill id msg s
  | MsgClass.serverRequest msg => emitEvent msg s
  | MsgClass.replyFallback id msg => tryFulfill id msg s
  | MsgClass.notification msg => emitEvent msg s
  | MsgClass.unparsable raw err => emitEvent (parseErrorMsg err raw) s
  | MsgClass.other _ => s

/-- The ids of all requests ever issued, in allocation order. -/
def reqKeys (s : SessionM) : List Nat := s.reqs.map Prod.fst

/-- The session-state invariant: every issued id and every tabled id is
below the counter, and issued ids are strictly increasing. -/
def SessInv (s : SessionM) : Prop :=
  (∀ k ∈ reqKeys s, k < s.nextId) ∧
  List.Pairwise (fun a b => a < b) (reqKeys s) ∧
  (∀ k ∈ s.table, k < s.nextId)

/-- A request whose outcome is still live (waiting or delivered). -/
def liveOutcome (r : Option ReqOutcome) : Prop :=
  r = some ReqOutcome.waiting ∨ ∃ v, r = some (ReqOutcome.delivered v)

/-! ## Concrete inputs used by claim counterexamples and witnesses -/

/-- An initialize reply that carries a JSON-RPC error object
(`{"error": {"code": -32600, "message": "init rejected"}, "id": 1}`). -/
def errorReplyMsg : Json :=
  Json.obj [(("error"), Json.obj [(("code"), Json.num (-32600)),
    (("message"), Json.str ("init rejected"))]), (("id"), Json.num 1)]

/-- A session state with request 2 pending, mid-session. -/
def c5state : SessionM :=
  { nextId := 3, reqs := [(1, ReqOutcome.delivered Json.null), (2, ReqOutcome.waiting)],
    table := [2], events := [], outbox := [] }

/-- An inbound reply to request 2: `{"id": 2, "result": "pong"}`. -/
def c5reply : Json :=
  Json.obj [(("id"), Json.num 2), (("result"), Json.str ("pong"))]

/-- An inbound reply whose id 7 has no pending completion. -/
def c5stale : Json :=
  Json.obj [(("id"), Json.num 7), (("error"), Json.str ("late"))]


theorem hexDigitChar_ne_nl (k : Nat) : hexDigitChar k ≠ '\n' := by
  unfold hexDigitChar
  split <;> decide

theorem escapeChar_no_nl (c : Char) : '\n' ∉ escapeChar c := by
  unfold escapeChar
  split_ifs with h1 h2 h3 h4 h5 h6 h7 h8
  · decide
  · decide
  · decide
  · decide
  · decide
  · decide
  · decide
  · intro hmem
    simp only [List.mem_cons, List.not_mem_nil, or_false] at hmem
    rcases hmem with h | h | h | h | h | h
    · exact absurd h.symm (by decide)
    · exact absurd h.symm (by decide)
    · exact absurd h.symm (by decide)
    · exact absurd h.symm (by decide)
    · exact hexDigitChar_ne_nl _ h.symm
    · exact hexDigitChar_ne_nl _ h.symm
  · intro hmem
    simp only [List.mem_singleton] at hmem
    have : ('\n').toNat < 32 := by decide
    rw [← hmem] at h8
    exact h8 this

theorem escapeStr_no_nl (s : String) : '\n' ∉ escapeStr s := by
  intro hmem
  unfold escapeStr at hmem
  rcases List.mem_cons.mp hmem with h | h
  · exact absurd h (by decide)
  rcases List.mem_append.mp h with h | h
  · rcases List.mem_flatten.mp h with ⟨l, hl, hnl⟩
    rcases List.mem_map.mp hl with ⟨c, _, hc⟩
    exact escapeChar_no_nl c (hc ▸ hnl)
  · exact absurd (List.mem_singleton.mp h) (by decide)

theorem natDigits_no_nl (n : Nat) : '\n' ∉ natDigits n := by
  induction n using Nat.strong_induction_on with
  | _ n ih =>
    rw [natDigits]
    split
    · intro hmem
      simp only [List.mem_singleton] at hmem
      exact hexDigitChar_ne_nl _ hmem.symm
    · intro hmem
      rcases List.mem_append.mp hmem with h | h
      · exact ih (n / 10) (Nat.div_lt_self (by omega) (by omega)) h
      · simp only [List.mem_singleton] at h
        exact hexDigitChar_ne_nl _ h.symm

theorem renderInt_no_nl (i : Int) : '\n' ∉ renderInt i := by
  unfold renderInt
  split
  · intro hmem
    rcases List.mem_cons.mp hmem with h | h
    · exact absurd h (by decide)
    · exact natDigits_no_nl _ h
  · exact natDigits_no_nl _

mutual

theorem renderChars_no_nl : (v : Json) → '\n' ∉ renderChars v
  | Json.null => by simp [renderChars]
  | Json.bool true => by simp [renderChars]
  | Json.bool false => by simp [renderChars]
  | Json.num i => by simpa [renderChars] using renderInt_no_nl i
  | Json.str s => by simpa [renderChars] using escapeStr_no_nl s
  | Json.arr xs => by
      intro hmem
      rw [renderChars] at hmem
      rcases List.mem_cons.mp hmem with h | h
      · exact absurd h (by decide)
      rcases List.mem_append.mp h with h | h
      · exact renderArr_no_nl xs h
      · exact absurd (List.mem_singleton.mp h) (by decide)
  | Json.obj fs => by
      intro hmem
      rw [renderChars] at hmem
      rcases List.mem_cons.mp hmem with h | h
      · exact absurd h (by decide)
      rcases List.mem_append.mp h with h | h
      · exact renderObj_no_nl fs h
      · exact absurd (List.mem_singleton.mp h) (by decide)

theorem renderArr_no_nl : (xs : List Json) → '\n' ∉ renderArr xs
  | [] => by simp [renderArr]
  | [v] => by
      intro hmem
      rw [renderArr] at hmem
      exact renderChars_no_nl v hmem
  | v :: w :: rest => by
      intro hmem
      rw [renderArr] at hmem
      rcases List.mem_append.mp hmem with h | h
      · exact renderChars_no_nl v h
      rcases List.mem_cons.mp h with h | h
      · exact absurd h (by decide)
      · exact renderArr_no_nl (w :: rest) h

theorem renderObj_no_nl : (fs : List (String × Json)) → '\n' ∉ renderObj fs
  | [] => by simp [renderObj]
  | [(k, v)] => by
      intro hmem
      rw [renderObj] at hmem
      rcases List.mem_append.mp hmem with h | h
      · exact escapeStr_no_nl k h
      rcases List.mem_cons.mp h with h | h
      · exact absurd h (by decide)
      · exact renderChars_no_nl v h
  | (k, v) :: f :: rest => by
      intro hmem
      rw [renderObj] at hmem
      rcases List.mem_append.mp hmem with h | h
      · rcases List.mem_append.mp h with h | h
        · exact escapeStr_no_nl k h
        rcases List.mem_cons.mp h with h | h
        · exact absurd h (by decide)
        · exact renderChars_no_nl v h
      rcases List.mem_cons.mp h with h | h
      · exact absurd h (by decide)
      · exact renderObj_no_nl (f :: rest) h

end

/-! ## Helper lemmas about the session state -/

theorem lookup_cons_self {β : Type} (k : Nat) (b : β) (tl : List (Nat × β)) :
    List.lookup k ((k, b) :: tl) = some b := by
  simp [List.lookup]

theorem lookup_cons_ne {β : Type} (j k : Nat) (b : β) (tl : List (Nat × β))
    (h : j ≠ k) : List.lookup j ((k, b) :: tl) = List.lookup j tl := by
  simp [List.lookup, beq_eq_false_iff_ne.mpr h]

theorem lookup_mapReq (i : Nat) (f : ReqOutcome → ReqOutcome)
    (l : List (Nat × ReqOutcome)) (j : Nat) :
    (mapReq i f l).lookup j = if j = i then (l.lookup j).map f else l.lookup j := by
  induction l with
  | nil => by_cases hj : j = i <;> simp [mapReq, List.lookup, hj]
  | cons hd tl ih =>
    obtain ⟨k, o⟩ := hd
    rw [mapReq]
    by_cases hk : k = i
    · rw [if_pos hk]
      subst hk
      by_cases hj : j = k
      · subst hj
        rw [lookup_cons_self, lookup_cons_self, if_pos rfl]
        rfl
      · rw [lookup_cons_ne j k _ _ hj, lookup_cons_ne j k _ _ hj, ih]
    · rw [if_neg hk]
      by_cases hj : j = k
      · subst hj
        rw [lookup_cons_self, lookup_cons_self, if_neg hk]
      · rw [lookup_cons_ne j k _ _ hj, lookup_cons_ne j k _ _ hj, ih]

theorem lookup_dropSenders (tbl : List Nat) (l : List (Nat × ReqOutcome)) (j : Nat) :
    (dropSenders tbl l).lookup j =
      if j ∈ tbl then (l.lookup j).map senderDropped else l.lookup j := by
  induction l with
  | nil => by_cases hj : j ∈ tbl <;> simp [dropSenders, List.lookup, hj]
  | cons hd tl ih =>
    obtain ⟨k, o⟩ := hd
    rw [dropSenders]
    by_cases hk : k ∈ tbl
    · rw [if_pos hk]
      by_cases hj : j = k
      · subst hj
        rw [lookup_cons_self, lookup_cons_self, if_pos hk]
        rfl
      · rw [lookup_cons_ne j k _ _ hj, lookup_cons_ne j k _ _ hj, ih]
    · rw [if_neg hk]
      by_cases hj : j = k
      · subst hj
        rw [lookup_cons_self, lookup_cons_self, if_neg hk]
      · rw [lookup_cons_ne j k _ _ hj, lookup_cons_ne j k _ _ hj, ih]

theorem map_fst_mapReq (i : Nat) (f : ReqOutcome → ReqOutcome)
    (l : List (Nat × ReqOutcome)) :
    (mapReq i f l).map Prod.fst = l.map Prod.fst := by
  induction l with
  | nil => rfl
  | cons hd tl ih =>
    obtain ⟨k, o⟩ := hd
    by_cases hk : k = i <;> simp [mapReq, hk, ih]

theorem map_fst_dropSenders (tbl : List Nat) (l : List (Nat × ReqOutcome)) :
    (dropSenders tbl l).map Prod.fst = l.map Prod.fst := by
  induction l with
  | nil => rfl
  | cons hd tl ih =>
    obtain ⟨k, o⟩ := hd
    by_cases hk : k ∈ tbl <;> simp [dropSenders, hk, ih]

theorem tryFulfill_nextId (i : Nat) (v : Json) (s : SessionM) :
    (tryFulfill i v s).nextId = s.nextId := by
  unfold tryFulfill
  split <;> rfl

theorem tryFulfill_table_subset (i : Nat) (v : Json) (s : SessionM) :
    (tryFulfill i v s).table ⊆ s.table := by
  unfold tryFulfill
  split
  · exact fun x hx => List.mem_of_mem_erase hx
  · exact fun x hx => hx

/-- Case analysis combinator for `processLine` on a parsed line: every
branch is one of `tryFulfill`, `emitEvent`, or the identity, so any
property preserved by those three is preserved by `processLine`. -/
theorem processLine_cases (motive : SessionM → Prop) (l : RawLine) (s : SessionM)
    (hid : motive s)
    (htf : ∀ i v, motive (tryFulfill i v s))
    (hev : ∀ v, motive (emitEvent v s)) : motive (processLine l s) := by
  cases l with
  | blank => exact hid
  | invalid raw err => exact hev _
  | valid v =>
    rcases hni : numericId v with _ | id <;> simp only [processLine, hni]
    · by_cases h2 : hasMethod v = true
      · rw [if_pos h2]
        exact hev v
      · rw [if_neg h2]
        exact hid
    · by_cases h1 : hasResultOrError v = true
      · rw [if_pos h1]
        exact htf id v
      · rw [if_neg h1]
        by_cases h2 : hasMethod v = true
        · rw [if_pos h2]
          exact hev v
        · rw [if_neg h2]
          exact htf id v

/-- `processLine` never changes the id counter. -/
theorem processLine_nextId (l : RawLine) (s : SessionM) :
    (processLine l s).nextId = s.nextId :=
  processLine_cases (fun t => t.nextId = s.nextId) l s rfl
    (fun i v => tryFulfill_nextId i v s) (fun _ => rfl)

/-- `processLine` never adds to the pending table. -/
theorem processLine_table_subset (l : RawLine) (s : SessionM) :
    (processLine l s).table ⊆ s.table :=
  processLine_cases (fun t => t.table ⊆ s.table) l s (fun _ h => h)
    (fun i v => tryFulfill_table_subset i v s) (fun _ _ h => h)

/-- The id counter never decreases across a step. -/
theorem nextId_le_step (s : SessionM) (op : Op) : s.nextId ≤ (step s op).nextId := by
  cases op with
  | sendRequest m p =>
    show s.nextId ≤ s.nextId + 1
    exact Nat.le_succ _
  | line l => exact le_of_eq (processLine_nextId l s).symm
  | callerCancel id => exact le_rfl
  | teardown => exact le_rfl

/-- A step only ever inserts the freshly allocated id into the table. -/
theorem mem_table_step (s : SessionM) (op : Op) (id : Nat)
    (h : id ∈ (step s op).table) : id ∈ s.table ∨ id = s.nextId := by
  cases op with
  | sendRequest m p =>
    rcases List.mem_append.mp h with h | h
    · exact Or.inl h
    · exact Or.inr (List.mem_singleton.mp h)
  | line l => exact Or.inl (processLine_table_subset l s h)
  | callerCancel id' => exact Or.inl h
  | teardown => cases h

/-- An id that has already been retired — it is below the counter and no
longer in the table — never reappears in the table. -/
theorem removed_stays_removed (s : SessionM) (id : Nat)
    (hlt : id < s.nextId) (hnot : id ∉ s.table) (ops : List Op) :
    id ∉ (runFrom s ops).table := by
  induction ops generalizing s with
  | nil => exact hnot
  | cons op rest ih =>
    have hstep : id ∉ (step s op).table := by
      intro hmem
      rcases mem_table_step s op id hmem with h | h
      · exact hnot h
      · omega
    exact ih (step s op) (Nat.lt_of_lt_of_le hlt (nextId_le_step s op)) hstep


theorem sessInv_init : SessInv initSession := by
  refine ⟨?_, ?_, ?_⟩ <;> simp [initSession, reqKeys]

theorem sessInv_tryFulfill (id : Nat) (v : Json) (s : SessionM) (h : SessInv s) :
    SessInv (tryFulfill id v s) := by
  obtain ⟨hb, hp, ht⟩ := h
  unfold tryFulfill
  split
  · exact ⟨by simpa [reqKeys, map_fst_mapReq] using hb,
           by simpa [reqKeys, map_fst_mapReq] using hp,
           fun k hk => ht k (List.mem_of_mem_erase hk)⟩
  · exact ⟨hb, hp, ht⟩

theorem sessInv_processLine (l : RawLine) (s : SessionM) (h : SessInv s) :
    SessInv (processLine l s) :=
  processLine_cases SessInv l s h (fun i v => sessInv_tryFulfill i v s h)
    (fun _ => h)

theorem sessInv_step (s : SessionM) (op : Op) (h : SessInv s) : SessInv (step s op) := by
  obtain ⟨hb, hp, ht⟩ := h
  cases op with
  | sendRequest m p =>
    refine ⟨?_, ?_, ?_⟩
    · intro k hk
      show k < s.nextId + 1
      simp only [reqKeys, step, sendRequestOp, List.map_append] at hk
      rcases List.mem_append.mp hk with hm | hm
      · exact Nat.lt_succ_of_lt (hb k hm)
      · simp only [List.map_cons, List.map_nil, List.mem_singleton] at hm
        omega
    · have hkeys : reqKeys (step s (Op.sendRequest m p)) = reqKeys s ++ [s.nextId] := by
        simp [reqKeys, step, sendRequestOp]
      rw [hkeys, List.pairwise_append]
      refine ⟨hp, List.pairwise_singleton _ _, ?_⟩
      intro a ha b hbm
      rw [List.mem_singleton] at hbm
      subst hbm
      exact hb a ha
    · intro k hk
      show k < s.nextId + 1
      simp only [step, sendRequestOp] at hk
      rcases List.mem_append.mp hk with hm | hm
      · exact Nat.lt_succ_of_lt (ht k hm)
      · simp only [List.mem_singleton] at hm
        omega
  | line l => exact sessInv_processLine l s ⟨hb, hp, ht⟩
  | callerCancel id =>
    exact ⟨by simpa [reqKeys, step, callerCancelOp, map_fst_mapReq] using hb,
           by simpa [reqKeys, step, callerCancelOp, map_fst_mapReq] using hp, ht⟩
  | teardown =>
    exact ⟨by simpa [reqKeys, step, sessionDrop, map_fst_dropSenders] using hb,
           by simpa [reqKeys, step, sessionDrop, map_fst_dropSenders] using hp,
           by simp [step, sessionDrop]⟩

theorem sessInv_runFrom (s : SessionM) (h : SessInv s) (ops : List Op) :
    SessInv (runFrom s ops) := by
  induction ops generalizing s with
  | nil => exact h
  | cons op rest ih => exact ih (step s op) (sessInv_step s op h)

theorem sessInv_runTrace (ops : List Op) : SessInv (runTrace ops) :=
  sessInv_runFrom initSession sessInv_init ops


/-- The reader can only fulfill a pending request, never cancel it: one line
keeps every request's outcome live. -/
theorem processLine_live (l : RawLine) (s : SessionM) (id : Nat)
    (h : liveOutcome (s.reqs.lookup id)) :
    liveOutcome ((processLine l s).reqs.lookup id) := by
  refine processLine_cases (fun t => liveOutcome (t.reqs.lookup id)) l s h ?_ (fun _ => h)
  intro i v
  unfold tryFulfill
  split
  · show liveOutcome ((mapReq i (fulfill v) s.reqs).lookup id)
    rw [lookup_mapReq]
    split
    · rcases h with hw | ⟨w, hw⟩ <;> rw [hw]
      · exact Or.inr ⟨v, rfl⟩
      · exact Or.inr ⟨w, rfl⟩
    · exact h
  · exact h

/-- Over any sequence of stdout lines — and in particular when the stream
then closes — a pending request is still waiting or was delivered a reply;
the reader never completes it with the cancellation error. -/
theorem readerRun_live (lines : List RawLine) (s : SessionM) (id : Nat)
    (h : liveOutcome (s.reqs.lookup id)) :
    liveOutcome ((readerRun lines s).reqs.lookup id) := by
  induction lines generalizing s with
  | nil => exact h
  | cons l rest ih => exact ih (processLine l s) (processLine_live l s id h)

/-! ## Helper lemmas about the PATH append loop -/

theorem appendMissing_cons (paths : List String) (e : String) (rest : List String) :
    appendMissing paths (e :: rest) =
      appendMissing (if e ∈ paths then paths else paths ++ [e]) rest := rfl

theorem prefix_appendMissing (paths extras : List String) :
    paths <+: appendMissing paths extras := by
  induction extras generalizing paths with
  | nil => exact List.prefix_rfl
  | cons a rest ih =>
    rw [appendMissing_cons]
    by_cases ha : a ∈ paths
    · rw [if_pos ha]
      exact ih paths
    · rw [if_neg ha]
      exact (List.prefix_append paths [a]).trans (ih (paths ++ [a]))

theorem mem_appendMissing_of_mem_extras (paths extras : List String) (e : String)
    (he : e ∈ extras) : e ∈ appendMissing paths extras := by
  induction extras generalizing paths with
  | nil => cases he
  | cons a rest ih =>
    rw [appendMissing_cons]
    rcases List.mem_cons.mp he with rfl | he'
    · refine (prefix_appendMissing _ rest).subset ?_
      by_cases ha : e ∈ paths
      · rw [if_pos ha]
        exact ha
      · rw [if_neg ha]
        exact List.mem_append.mpr (Or.inr (List.mem_singleton.mpr rfl))
    · exact ih _ he'

theorem mem_of_mem_appendMissing (paths extras : List String) (x : String)
    (hx : x ∈ appendMissing paths extras) : x ∈ paths ∨ x ∈ extras := by
  induction extras generalizing paths with
  | nil => exact Or.inl hx
  | cons a rest ih =>
    rw [appendMissing_cons] at hx
    rcases ih _ hx with h | h
    · by_cases ha : a ∈ paths
      · rw [if_pos ha] at h
        exact Or.inl h
      · rw [if_neg ha] at h
        rcases List.mem_append.mp h with h | h
        · exact Or.inl h
        · rw [List.mem_singleton] at h
          exact Or.inr (h ▸ List.mem_cons_self a rest)
    · exact Or.inr (List.mem_cons_of_mem a h)

theorem count_appendMissing_of_not_mem (paths extras : List String) (e : String)
    (he : e ∉ extras) : (appendMissing paths extras).count e = paths.count e := by
  induction extras generalizing paths with
  | nil => rfl
  | cons a rest ih =>
    have hne : e ≠ a := fun h => he (h ▸ List.mem_cons_self a rest)
    have he' : e ∉ rest := fun h => he (List.mem_cons_of_mem a h)
    rw [appendMissing_cons]
    by_cases ha : a ∈ paths
    · rw [if_pos ha, ih _ he']
    · rw [if_neg ha, ih _ he', List.count_append]
      simp [List.count_singleton', hne]

theorem count_appendMissing_of_mem (paths extras : List String) (e : String)
    (he : e ∈ extras) : (appendMissing paths extras).count e = max (paths.count e) 1 := by
  induction extras generalizing paths with
  | nil => cases he
  | cons a rest ih =>
    rw [appendMissing_cons]
    by_cases her : e ∈ rest
    · rw [ih _ her]
      by_cases ha : a ∈ paths
      · rw [if_pos ha]
      · rw [if_neg ha, List.count_append]
        by_cases hae : e = a
        · subst hae
          have h0 : paths.count e = 0 := List.count_eq_zero.mpr ha
          simp [h0, List.count_singleton]
        · simp [List.count_singleton', hae]
    · have hea : e = a := by
        rcases List.mem_cons.mp he with h | h
        · exact h
        · exact absurd h her
      subst hea
      rw [count_appendMissing_of_not_mem _ _ _ her]
      by_cases ha : e ∈ paths
      · rw [if_pos ha]
        have h1 : 1 ≤ paths.count e := List.count_pos_iff.mpr ha
        omega
      · rw [if_neg ha, List.count_append]
        have h0 : paths.count e = 0 := List.count_eq_zero.mpr ha
        simp [h0, List.count_singleton]

theorem empty_not_mem_inheritedPathEntries (pathVar : Option String) :
    ("" : String) ∉ inheritedPathEntries pathVar := by
  intro h
  have := List.of_mem_filter h
  simp at this


/-! ## The claims -/

/-- C1 counterexample: the claim says a reply to `initialize` carrying an
error object fails session construction and tears the process down.  On the
code, `init_response?` only propagates the `Result` layer; an `Ok` reply is
never inspected, so with this error-object reply the session is exposed
(`exposed = true`) and the child is not killed. -/
theorem c1_counterexample :
    (Json.get errorReplyMsg ("error")).isSome = true ∧
    finishHandshake (InitOutcome.replied errorReplyMsg) (Except.ok ()) =
      { exposed := true, killed := false, error := none } :=
  ⟨rfl, rfl⟩

/-- C1 (amended): a reply to `initialize` carrying an error object does not
fail session construction — the reply value is never inspected, the child
is not killed on that path, and (provided the `initialized` notification
write succeeds) the session is returned to the caller. -/
theorem c1_amended (v : Json) (h : (Json.get v ("error")).isSome = true) :
    finishHandshake (InitOutcome.replied v) (Except.ok ()) =
      { exposed := true, killed := false, error := none } :=
  rfl

/-- Witness for C1 at a concrete error-object reply. -/
theorem c1_witness :
    (Json.get (Json.obj [(("error"), Json.str ("boom")), (("id"), Json.num 2)]) ("error")).isSome
      = true ∧
    finishHandshake
        (InitOutcome.replied (Json.obj [(("error"), Json.str ("boom")), (("id"), Json.num 2)]))
        (Except.ok ()) =
      { exposed := true, killed := false, error := none } :=
  ⟨rfl, c1_amended (Json.obj [(("error"), Json.str ("boom")), (("id"), Json.num 2)]) rfl⟩

/-- C4: if the initialize request resolves by timeout, session construction
returns the timeout error (so no session is exposed to the caller) and the
child is killed on that path, so the process is no longer running
afterward. -/
theorem c4_handshake_timeout (notify : Except String Unit) (probeVersion : Option String) :
    finishHandshake InitOutcome.timedOut notify =
      { exposed := false, killed := true, error := some handshakeTimeoutMsg } ∧
    spawnWorkspaceSession (Except.ok probeVersion) (Except.ok ()) InitOutcome.timedOut notify =
      Except.error handshakeTimeoutMsg :=
  ⟨rfl, rfl⟩

/-- C9: if spawning fails at any stage — installation probe, process spawn,
or handshake — `add_workspace` returns that error and leaves the state
unchanged: no workspaces-map entry, no persisted write, no session
registered. -/
theorem c9_add_workspace_spawn_failure (probe : Except String (Option String))
    (spawnOk : Except String Unit) (init : InitOutcome) (notify : Except String Unit)
    (entry : WorkspaceEntryM) (st : AppStateM) (e : String)
    (h : spawnWorkspaceSession probe spawnOk init notify = Except.error e) :
    addWorkspace probe spawnOk init notify entry st = (st, Except.error e) := by
  unfold addWorkspace
  rw [h]

/-- Witness for C9: a failing installation probe leaves a concrete state
untouched. -/
theorem c9_witness :
    spawnWorkspaceSession (Except.error ("Codex CLI not found")) (Except.ok ())
        (InitOutcome.replied Json.null) (Except.ok ()) =
      Except.error ("Codex CLI not found") ∧
    addWorkspace (Except.error ("Codex CLI not found")) (Except.ok ())
        (InitOutcome.replied Json.null) (Except.ok ())
        { id := ("w1"), name := ("proj"), path := ("/tmp/proj"), codexBin := none,
          sidebarCollapsed := false }
        { workspaces := [], storageWrites := [], sessions := [] } =
      ({ workspaces := [], storageWrites := [], sessions := [] },
        Except.error ("Codex CLI not found")) :=
  ⟨rfl, c9_add_workspace_spawn_failure _ _ _ _ _ _ _ rfl⟩

/-- C10: a line that parses as JSON but has neither a numeric id nor a
method field is silently discarded: no event, no change to the pending
table, and the reader continues with the next line. -/
theorem c10_silent_discard (v : Json) (s : SessionM)
    (h1 : numericId v = none) (h2 : Json.get v ("method") = none) :
    processLine (RawLine.valid v) s = s ∧
    ∀ rest, readerRun (RawLine.valid v :: rest) s = readerRun rest s := by
  have hm : hasMethod v = false := by
    rw [hasMethod, h2]
    rfl
  have hp : processLine (RawLine.valid v) s = s := by
    simp [processLine, h1, hm]
  refine ⟨hp, fun rest => ?_⟩
  show readerRun rest (processLine (RawLine.valid v) s) = readerRun rest s
  rw [hp]

/-- Witness for C10: the line `null` is valid JSON with no id and no
method; it leaves the fresh session untouched. -/
theorem c10_witness :
    numericId Json.null = none ∧ Json.get Json.null ("method") = none ∧
    processLine (RawLine.valid Json.null) initSession = initSession :=
  ⟨rfl, rfl, (c10_silent_discard Json.null initSession rfl rfl).1⟩

/-- C6: inbound routing is exactly the claim's structural
classify-then-dispatch rules (`classifyLine`/`dispatchClass` are modelled
from the claim's words, `processLine` from the source), and processing any
line — a parse error included — never terminates the reader loop: the run
always continues with the remaining lines. -/
theorem c6_classification :
    (∀ l s, processLine l s = dispatchClass (classifyLine l) s) ∧
    (∀ l rest s, readerRun (l :: rest) s = readerRun rest (processLine l s)) := by
  constructor
  · intro l s
    cases l with
    | blank => rfl
    | invalid raw err => rfl
    | valid v =>
      rcases hni : numericId v with _ | id <;>
        simp only [processLine, classifyLine, hni]
      · by_cases h2 : hasMethod v = true
        · rw [if_pos h2, if_pos h2]
          rfl
        · rw [if_neg h2, if_neg h2]
          rfl
      · by_cases h1 : hasResultOrError v = true
        · rw [if_pos h1, if_pos h1]
          rfl
        · rw [if_neg h1, if_neg h1]
          by_cases h2 : hasMethod v = true
          · rw [if_pos h2, if_pos h2]
            rfl
          · rw [if_neg h2, if_neg h2]
            rfl
  · intro l rest s
    rfl

/-- C8: every outbound message is serialized as exactly one JSON object
followed by exactly one newline (the serialized object itself contains no
newline character, thanks to JSON string escaping), written in one piece
under the stdin mutex; and a notification's `params` key is present exactly
when params were supplied. -/
theorem c8_outbound_wire_shape :
    (∀ v : Json, writeMessage v = renderChars v ++ ['\n']) ∧
    (∀ v : Json, (renderChars v).count '\n' = 0) ∧
    (∀ v : Json, (writeMessage v).count '\n' = 1) ∧
    (∀ method : String, ∀ p : Json,
        Json.get (notificationMsg method (some p)) ("params") = some p) ∧
    (∀ method : String, Json.get (notificationMsg method none) ("params") = none) := by
  have hcount : ∀ v : Json, (renderChars v).count '\n' = 0 :=
    fun v => List.count_eq_zero.mpr (renderChars_no_nl v)
  refine ⟨fun v => rfl, hcount, fun v => ?_, fun method p => rfl, fun method => rfl⟩
  rw [writeMessage, List.count_append, hcount v]
  rfl

/-- C2 counterexample: request 1 is pending when stdout closes (the reader
consumes the empty remainder of the stream and returns).  The claim says
the caller's `send_request` then completes with the `Canceled` error; in
fact the oneshot sender stays in the pending map, so the outcome is still
`waiting` — the caller stays suspended. -/
theorem c2_counterexample :
    (readerRun [] (runTrace [Op.sendRequest ("ping") Json.null])).reqs.lookup 1 =
      some ReqOutcome.waiting ∧
    some ReqOutcome.waiting ≠ some ReqOutcome.canceled :=
  ⟨rfl, fun h => ReqOutcome.noConfusion (Option.some.inj h)⟩

/-- C2 (amended): stream closure does not cancel pending requests — after
the reader consumes any remaining lines and returns, every pending request
is still waiting (its caller stays suspended) unless a reply delivered it;
requests complete with `Canceled` only when the session value itself is
dropped at teardown, which drops every sender still in the table. -/
theorem c2_amended :
    (∀ lines s id, s.reqs.lookup id = some ReqOutcome.waiting →
        (readerRun lines s).reqs.lookup id = some ReqOutcome.waiting ∨
        ∃ v, (readerRun lines s).reqs.lookup id = some (ReqOutcome.delivered v)) ∧
    (∀ s id, id ∈ s.table → s.reqs.lookup id = some ReqOutcome.waiting →
        (sessionDrop s).reqs.lookup id = some ReqOutcome.canceled) := by
  constructor
  · intro lines s id h
    exact readerRun_live lines s id (Or.inl h)
  · intro s id hmem h
    show (dropSenders s.table s.reqs).lookup id = some ReqOutcome.canceled
    rw [lookup_dropSenders, if_pos hmem, h]
    rfl

/-- Witness for C2 at one pending request. -/
theorem c2_witness :
    ((readerRun [RawLine.blank] (runTrace [Op.sendRequest ("ping") Json.null])).reqs.lookup 1 =
        some ReqOutcome.waiting ∨
      ∃ v, (readerRun [RawLine.blank]
          (runTrace [Op.sendRequest ("ping") Json.null])).reqs.lookup 1 =
        some (ReqOutcome.delivered v)) ∧
    (sessionDrop (runTrace [Op.sendRequest ("ping") Json.null])).reqs.lookup 1 =
      some ReqOutcome.canceled :=
  ⟨c2_amended.1 [RawLine.blank] _ 1 rfl,
   c2_amended.2 _ 1 (List.mem_singleton.mpr rfl) rfl⟩

/-- C3 counterexample: the caller of request 1 gives up its wait (drops the
receiver, e.g. a caller-side timeout).  The claim says the pending slot is
then removed from the table; in fact nothing in the code observes the drop,
and the slot is still in the table afterwards. -/
theorem c3_counterexample :
    (runTrace [Op.sendRequest ("ping2") Json.null, Op.callerCancel 1]).reqs.lookup 1 =
      some ReqOutcome.abandoned ∧
    (runTrace [Op.sendRequest ("ping2") Json.null, Op.callerCancel 1]).table = [1] :=
  ⟨rfl, rfl⟩

/-- C3 (amended): a caller abandoning its wait does not remove the slot —
it leaks in the table until a matching inbound message or session teardown;
an id leaves the table only through a line consumed as a reply (or the
id-only fallback) with that id, or through teardown; and once an id is
retired it never re-enters the table (ids are never reused) — every id in a
reachable table is below the counter. -/
theorem c3_amended :
    (∀ s id, (step s (Op.callerCancel id)).table = s.table) ∧
    (∀ s op id, id ∈ s.table → id ∉ (step s op).table →
        op = Op.teardown ∨
        ∃ v, op = Op.line (RawLine.valid v) ∧ numericId v = some id ∧
          (hasResultOrError v = true ∨ hasMethod v = false)) ∧
    (∀ s id, id < s.nextId → id ∉ s.table → ∀ ops, id ∉ (runFrom s ops).table) ∧
    (∀ ops id, id ∈ (runTrace ops).table → id < (runTrace ops).nextId) := by
  refine ⟨fun s id => rfl, ?_, ?_, ?_⟩
  · intro s op id h1 h2
    cases op with
    | sendRequest m p =>
      exact absurd (List.mem_append.mpr (Or.inl h1)) h2
    | line l =>
      cases l with
      | blank => exact absurd h1 h2
      | invalid raw err => exact absurd h1 h2
      | valid v =>
        replace h2 : id ∉ (processLine (RawLine.valid v) s).table := h2
        refine Or.inr ⟨v, rfl, ?_⟩
        rcases hni : numericId v with _ | i
        · exfalso
          apply h2
          simp only [processLine, hni]
          by_cases hm : hasMethod v = true
          · rw [if_pos hm]
            exact h1
          · rw [if_neg hm]
            exact h1
        · by_cases h1' : hasResultOrError v = true
          · have htab : (processLine (RawLine.valid v) s).table = (tryFulfill i v s).table := by
              simp only [processLine, hni, if_pos h1']
            rw [htab] at h2
            unfold tryFulfill at h2
            by_cases hmem : i ∈ s.table
            · rw [if_pos hmem] at h2
              by_cases hii : id = i
              · subst hii
                exact ⟨rfl, Or.inl h1'⟩
              · exfalso
                exact h2 ((List.mem_erase_of_ne hii).mpr h1)
            · rw [if_neg hmem] at h2
              exact absurd h1 h2
          · by_cases hm : hasMethod v = true
            · exfalso
              apply h2
              simp only [processLine, hni, if_neg h1', if_pos hm]
              exact h1
            · have htab : (processLine (RawLine.valid v) s).table = (tryFulfill i v s).table := by
                simp only [processLine, hni, if_neg h1', if_neg hm]
              rw [htab] at h2
              unfold tryFulfill at h2
              by_cases hmem : i ∈ s.table
              · rw [if_pos hmem] at h2
                by_cases hii : id = i
                · subst hii
                  exact ⟨rfl, Or.inr (Bool.not_eq_true _ ▸ hm : hasMethod v = false)⟩
                · exfalso
                  exact h2 ((List.mem_erase_of_ne hii).mpr h1)
              · rw [if_neg hmem] at h2
                exact absurd h1 h2
    | callerCancel i => exact absurd h1 h2
    | teardown => exact Or.inl rfl
  · intro s id hlt hnot ops
    exact removed_stays_removed s id hlt hnot ops
  · intro ops id hmem
    exact (sessInv_runTrace ops).2.2 id hmem

/-- Witness for C3: teardown legitimately removes a pending id, and a
retired id never reappears. -/
theorem c3_witness :
    (Op.teardown = Op.teardown ∨
      ∃ v, Op.teardown = Op.line (RawLine.valid v) ∧ numericId v = some 1 ∧
        (hasResultOrError v = true ∨ hasMethod v = false)) ∧
    (0 : Nat) ∉ (runFrom initSession [Op.teardown]).table :=
  ⟨c3_amended.2.1 (runTrace [Op.sendRequest ("ping3") Json.null]) Op.teardown 1
      (List.mem_singleton.mpr rfl) (List.not_mem_nil 1),
   c3_amended.2.2.1 initSession 0 (by decide) (List.not_mem_nil 0) [Op.teardown]⟩

/-- C5: over any session history the issued ids are strictly increasing
(unique, never reused); an inbound reply with a pending id removes exactly
that id's completion and fulfills it with the full inbound message, leaving
every other request's outcome untouched and emitting no event — so replies
arriving in any order reach exactly their own callers; and a reply whose id
has no pending completion changes nothing at all (dropped silently). -/
theorem c5_reply_correlation :
    (∀ ops, List.Pairwise (fun a b => a < b) (reqKeys (runTrace ops))) ∧
    (∀ s v id, numericId v = some id → hasResultOrError v = true → id ∈ s.table →
        ((processLine (RawLine.valid v) s).table = s.table.erase id ∧
         (processLine (RawLine.valid v) s).events = s.events ∧
         (∀ j, j ≠ id →
            (processLine (RawLine.valid v) s).reqs.lookup j = s.reqs.lookup j) ∧
         (s.reqs.lookup id = some ReqOutcome.waiting →
            (processLine (RawLine.valid v) s).reqs.lookup id =
              some (ReqOutcome.delivered v)))) ∧
    (∀ s v id, numericId v = some id → hasResultOrError v = true → id ∉ s.table →
        processLine (RawLine.valid v) s = s) := by
  refine ⟨fun ops => (sessInv_runTrace ops).2.1, ?_, ?_⟩
  · intro s v id hni hre hmem
    have heq : processLine (RawLine.valid v) s =
        { s with table := s.table.erase id, reqs := mapReq id (fulfill v) s.reqs } := by
      simp only [processLine, hni, if_pos hre]
      unfold tryFulfill
      rw [if_pos hmem]
    rw [heq]
    refine ⟨rfl, rfl, ?_, ?_⟩
    · intro j hj
      show (mapReq id (fulfill v) s.reqs).lookup j = s.reqs.lookup j
      rw [lookup_mapReq, if_neg hj]
    · intro hw
      show (mapReq id (fulfill v) s.reqs).lookup id = some (ReqOutcome.delivered v)
      rw [lookup_mapReq, if_pos rfl, hw]
      rfl
  · intro s v id hni hre hmem
    simp only [processLine, hni, if_pos hre]
    unfold tryFulfill
    rw [if_neg hmem]

/-- Witness for C5: the reply `{"id": 2, "result": "pong"}` fulfills
request 2 with the full message, and the stale reply with id 7 changes
nothing. -/
theorem c5_witness :
    (processLine (RawLine.valid c5reply) c5state).reqs.lookup 2 =
      some (ReqOutcome.delivered c5reply) ∧
    processLine (RawLine.valid c5stale) c5state = c5state :=
  ⟨(c5_reply_correlation.2.1 c5state c5reply 2 rfl rfl
      (List.mem_singleton.mpr rfl)).2.2.2 rfl,
   c5_reply_correlation.2.2 c5state c5stale 7 rfl rfl (by decide)⟩

/-- C7 counterexample: the claim says the child's search path is the
inherited PATH with the extras appended, preserving the original entries.
With inherited PATH `"a::b"` the original entries include the empty entry
(which POSIX reads as the current directory), yet the code filters it out:
the resulting entry list does not contain it. -/
theorem c7_counterexample :
    ("" ∈ splitPath ("a::b")) ∧
    childPathEntries none (some ("a::b")) none =
      some ["a", "b", "/opt/homebrew/bin", "/usr/local/bin", "/usr/bin", "/bin",
        "/usr/sbin", "/sbin"] ∧
    ("" : String) ∉ ["a", "b", "/opt/homebrew/bin", "/usr/local/bin", "/usr/bin", "/bin",
        "/usr/sbin", "/sbin"] := by
  refine ⟨by decide, by decide, by decide⟩

/-- C7 (amended): when no (or a blank) binary path is configured, the
child's PATH is the inherited PATH's non-empty entries in their original
order (empty entries are dropped), followed by the fixed extra directories
— including the HOME-relative ones when HOME is set — each appended exactly
once and skipped when already present, and nothing else; when an explicit
non-blank binary path is configured, the inherited PATH is left
unmodified. -/
theorem c7_amended :
    (∀ pathVar home,
        childPathEntries none pathVar home =
          some (appendMissing (inheritedPathEntries pathVar) (pathExtras home))) ∧
    (∀ pathVar home,
        inheritedPathEntries pathVar <+:
          appendMissing (inheritedPathEntries pathVar) (pathExtras home)) ∧
    (∀ pathVar home e, e ∈ pathExtras home →
        e ∈ appendMissing (inheritedPathEntries pathVar) (pathExtras home)) ∧
    (∀ pathVar home e, e ∈ pathExtras home →
        (appendMissing (inheritedPathEntries pathVar) (pathExtras home)).count e =
          max ((inheritedPathEntries pathVar).count e) 1) ∧
    (∀ pathVar home x,
        x ∈ appendMissing (inheritedPathEntries pathVar) (pathExtras home) →
        x ∈ inheritedPathEntries pathVar ∨ x ∈ pathExtras home) ∧
    (∀ pathVar, ("" : String) ∉ inheritedPathEntries pathVar) ∧
    (∀ codexBin pathVar home, defaultBinUsed codexBin = false →
        childPathEntries codexBin pathVar home = none) := by
  refine ⟨?_, fun pathVar home => prefix_appendMissing _ _,
    fun pathVar home e he => mem_appendMissing_of_mem_extras _ _ e he,
    fun pathVar home e he => count_appendMissing_of_mem _ _ e he,
    fun pathVar home x hx => mem_of_mem_appendMissing _ _ x hx,
    empty_not_mem_inheritedPathEntries, ?_⟩
  · intro pathVar home
    have hne : appendMissing (inheritedPathEntries pathVar) (pathExtras home) ≠ [] :=
      List.ne_nil_of_mem (mem_appendMissing_of_mem_extras _ _ ("/opt/homebrew/bin")
        (List.mem_append.mpr (Or.inl (by decide))))
    show (if (appendMissing (inheritedPathEntries pathVar) (pathExtras home)).isEmpty = true
          then none
          else some (appendMissing (inheritedPathEntries pathVar) (pathExtras home))) =
        some (appendMissing (inheritedPathEntries pathVar) (pathExtras home))
    rw [if_neg (fun hc => hne (List.isEmpty_iff.mp hc))]
  · intro codexBin pathVar home h
    unfold childPathEntries
    rw [if_neg (fun hc => by rw [h] at hc; cases hc)]

/-- Witness for C7: with inherited PATH already containing `/usr/bin`, that
extra is skipped (its count stays 1), and an explicit non-blank binary path
leaves PATH unmodified. -/
theorem c7_witness :
    (appendMissing (inheritedPathEntries (some ("/usr/bin:/custom")))
        (pathExtras (some ("/home/u")))).count ("/usr/bin") =
      max ((inheritedPathEntries (some ("/usr/bin:/custom"))).count ("/usr/bin")) 1 ∧
    childPathEntries (some ("/opt/custom/codex")) (some ("/usr/bin")) none = none :=
  ⟨c7_amended.2.2.2.1 (some ("/usr/bin:/custom")) (some ("/home/u")) ("/usr/bin") (by decide),
   c7_amended.2.2.2.2.2.2 (some ("/opt/custom/codex")) (some ("/usr/bin")) none (by decide)⟩

end CodexMonitor
